import Mathlib

set_option maxHeartbeats 1000000
set_option maxRecDepth 100000
set_option linter.unusedVariables false

/-!
Verification development for the `arxiv_daily_update` repository
(`src/main.py`, `src/data_model.py`).

The repository is a single-pass digest script.  Its external collaborators
(PDF parsing via fitz, HTTP, SMTP, the language model) are modelled as
explicit inputs: fallible steps enter the embedded functions as `Except`
values, and the images / first-page text that fitz would deliver enter as
plain data.  All embedded functions are executable.

Layout: all definitions first, then the lemmas and theorems.
-/

namespace ArxivDaily

/-! ## Figure extraction (`extract_main_figure`, src/main.py lines 69-92)

One embedded raster image of the PDF is modelled by its pixel dimensions:
only `pix.width`/`pix.height` reach the selection logic, and the
alpha/colour-space conversion at lines 78-79 does not change them.  The
input list stands for the pixmaps in page order, then embedding order.
The PNG encoding (`best.tobytes`) of the winning pixmap is external; the
embedding returns the selected image itself. -/

structure PdfImage where
  w : Nat
  h : Nat
deriving DecidableEq, Repr

def imgArea (i : PdfImage) : Nat := i.w * i.h

/-- The two rejection tests of lines 82-85: the smaller dimension is at
least 200 and the aspect ratio is at most 6:1 in either direction.
The Python float divisions `w / h > 6` and `h / w > 6` are modelled by the
exact integer comparisons `6 * h < w` and `6 * w < h`; for dimensions small
enough to occur in a PDF (far below 2^40) the float comparison agrees with
the exact one, since the true ratio differs from 6 by at least `1 / h`,
far more than the rounding error of one float division near 6. -/
def passesFilter (i : PdfImage) : Prop :=
  ¬ min i.w i.h < 200 ∧ ¬ (6 * i.h < i.w ∨ 6 * i.w < i.h)

instance : DecidablePred passesFilter := fun i => by
  unfold passesFilter; infer_instance

/-- One iteration of the selection loop (lines 80-87): state is the best
pixmap so far together with `best_area` (initially `(None, 0)`). -/
def selectStep (acc : Option PdfImage × Nat) (img : PdfImage) : Option PdfImage × Nat :=
  if min img.w img.h < 200 then acc
  else if 6 * img.h < img.w ∨ 6 * img.w < img.h then acc
  else if acc.2 < imgArea img then (some img, imgArea img) else acc

/-- The selection logic of `extract_main_figure` over the images fitz
delivers: fold the loop body over the images, return the final best
(`if best: return best.tobytes("png")`, line 88-89). -/
def extract_main_figure (imgs : List PdfImage) : Option PdfImage :=
  (imgs.foldl selectStep (none, 0)).1

/-- Loop invariant for the selection fold: either nothing so far passed the
filters and the state is still `(none, 0)`, or the state holds a passing
image `b` of maximal area among the passing images seen so far, `b` being
the first occurrence attaining that area. -/
def SelInv (processed : List PdfImage) (acc : Option PdfImage × Nat) : Prop :=
  (acc.1 = none ∧ acc.2 = 0 ∧ ∀ i ∈ processed, ¬ passesFilter i) ∨
  (∃ b, acc.1 = some b ∧ acc.2 = imgArea b ∧ passesFilter b ∧
    ∃ pre post, processed = pre ++ b :: post ∧
      (∀ i ∈ pre, passesFilter i → imgArea i < imgArea b) ∧
      (∀ i ∈ post, passesFilter i → imgArea i ≤ imgArea b))

/-- Concrete image list for the C3 witness: a too-small image, two passing
images of areas 40401 and 75000, and a too-thin one. -/
def imgsW : List PdfImage := [⟨100, 300⟩, ⟨201, 201⟩, ⟨250, 300⟩, ⟨1300, 200⟩]

/-! ## Division guarding in the aspect test (claim C10)

The Python expression `w / h > 6 or h / w > 6` (line 84) evaluates `w / h`
first, raising ZeroDivisionError when `h = 0`; if that comparison is false
it evaluates `h / w`, raising when `w = 0`.  `aspectTooThin` models the
expression with those failure points explicit (the comparison itself uses
the exact integer form, as in `passesFilter`). -/

def aspectTooThin (w h : Nat) : Except String Bool :=
  if h = 0 then Except.error ("ZeroDivisionError")
  else if 6 * h < w then Except.ok true
  else if w = 0 then Except.error ("ZeroDivisionError")
  else Except.ok (decide (6 * w < h))

/-- The loop body of `extract_main_figure` with the division failure points
of line 84 kept explicit: the minimum-dimension rejection at lines 82-83
runs first, and only if it does not `continue` is the aspect expression
evaluated. -/
def selectStepE (acc : Option PdfImage × Nat) (img : PdfImage) :
    Except String (Option PdfImage × Nat) :=
  if min img.w img.h < 200 then Except.ok acc
  else
    match aspectTooThin img.w img.h with
    | Except.error e => Except.error e
    | Except.ok true => Except.ok acc
    | Except.ok false =>
        if acc.2 < imgArea img then Except.ok (some img, imgArea img) else Except.ok acc

/-! ## String helpers shared by several components

Python `str.strip`, `str.lower`, substring membership, `str.replace`,
`", ".join`, and the whitespace class of the regexes are modelled on
`List Char`.  The models cover the ASCII whitespace and digit classes;
Python additionally treats some rare Unicode characters as whitespace or
digits, which none of the embedded heuristics depend on. -/

def pyIsSpace (c : Char) : Bool :=
  c = ' ' || c = '\t' || c = '\n' || c = '\r' || c = Char.ofNat 11 || c = Char.ofNat 12

def stripChars (cs : List Char) : List Char :=
  ((cs.dropWhile pyIsSpace).reverse.dropWhile pyIsSpace).reverse

/-- Python `s.strip()`. -/
def pyStrip (s : String) : String := ⟨stripChars s.data⟩

def listStartsWith : List Char → List Char → Bool
  | [], _ => true
  | _ :: _, [] => false
  | a :: as, b :: bs => a = b && listStartsWith as bs

/-- Python `needle in hay` on strings, as character lists. -/
def containsSub (needle : List Char) : List Char → Bool
  | [] => listStartsWith needle []
  | c :: t => listStartsWith needle (c :: t) || containsSub needle t

/-- Python `s.replace(pat, rep)`: replace every non-overlapping occurrence,
left to right (the source only uses the non-empty pattern "http://").
Structural recursion on fuel, one unit per consumed character, so the
length of the scanned text is always enough fuel. -/
def replaceAllCharsAux (pat rep : List Char) : Nat → List Char → List Char
  | 0, cs => cs
  | fuel + 1, cs =>
    match cs with
    | [] => []
    | c :: t =>
      if pat ≠ [] ∧ listStartsWith pat (c :: t) then
        rep ++ replaceAllCharsAux pat rep fuel ((c :: t).drop pat.length)
      else c :: replaceAllCharsAux pat rep fuel t

def replaceAllChars (pat rep cs : List Char) : List Char :=
  replaceAllCharsAux pat rep cs.length cs

/-- `pdf_url.replace("http://", "https://")` (src/main.py line 52). -/
def replaceHttp (s : String) : String :=
  ⟨replaceAllChars ("http://".data) ("https://".data) s.data⟩

/-- Python `s.lower()` (ASCII case mapping). -/
def lowerStr (s : String) : String := ⟨s.data.map Char.toLower⟩

/-- Python `", ".join(xs)`. -/
def joinComma : List String → String
  | [] => ""
  | [x] => x
  | x :: t => x ++ ", " ++ joinComma t

/-- Python `"".join(xs)`. -/
def joinStr : List String → String
  | [] => ""
  | s :: t => s ++ joinStr t

/-! ## Data model (`src/data_model.py`)

`bytes` values are modelled as lists of byte values. -/

structure PaperItem where
  arxiv_id : String
  title : String
  summary : String
  authors : List String
  pdf_url : String
  abs_url : String
deriving DecidableEq, Repr

structure PaperDigest where
  paper : PaperItem
  zh_summary : String
  summary_en : String
  main_img_bytes : Option (List Nat)
  main_img_cid : Option String
deriving DecidableEq, Repr

/-- The keyword arguments of a `PaperDigest(...)` call: `none` in a field
means the caller did not pass that keyword. -/
structure PaperDigestKwargs where
  paper : Option PaperItem := none
  zh_summary : Option String := none
  summary_en : Option String := none
  main_img_bytes : Option (Option (List Nat)) := none
  main_img_cid : Option (Option String) := none
deriving DecidableEq, Repr

/-- Pydantic validation of a `PaperDigest(...)` call: every field of
`data_model.PaperDigest` is declared without a default, so a call that
omits any of them raises ValidationError; a call passing all of them
constructs the (immutable) model instance. -/
def PaperDigest.validate (k : PaperDigestKwargs) : Except String PaperDigest :=
  match k.paper, k.zh_summary, k.summary_en, k.main_img_bytes, k.main_img_cid with
  | some p, some zh, some en, some mb, some mc => Except.ok ⟨p, zh, en, mb, mc⟩
  | _, _, _, _, _ => Except.error ("ValidationError: missing required field")

/-- Python truthiness of the `img` variable of `run` (either `None` or a
bytes object): `None` and empty bytes are falsy. -/
def pyTruthyBytes : Option (List Nat) → Bool
  | none => false
  | some b => !b.isEmpty

/-- The keyword arguments of the `PaperDigest(...)` call in `run`
(src/main.py lines 260-267): `paper=p`, `zh_summary=zh_summary`,
`main_img_bytes=img`, `main_img_cid=cid if img else None` with
`cid` being the string `img-` followed by the paper's arxiv id — and no
`summary_en` keyword. -/
def runDigestKwargs (p : PaperItem) (zh : String) (img : Option (List Nat)) :
    PaperDigestKwargs :=
  { paper := some p
    zh_summary := some zh
    main_img_bytes := some img
    main_img_cid := some (if pyTruthyBytes img then some ("img-" ++ p.arxiv_id) else none) }

/-! ## Listing fetcher (`fetch_recent_arxiv`, src/main.py lines 25-66)

A listing result is modelled by the fields the function reads.  Timestamps
are seconds since the epoch (`Int`), all in UTC as delivered by the arXiv
client; `lookback_hours` enters in hours and is converted to seconds where
the source subtracts `timedelta(hours=...)`.  The UTC calendar day
`datetime.date()` of a timestamp is its floor-division by 86400.
The `affiliations` keyword built at lines 43-51 is passed to
`PaperItem(...)` but `data_model.PaperItem` declares no such field, and
pydantic ignores unknown keyword arguments, so it does not appear in the
constructed item. -/

structure ListingResult where
  updated : Option Int
  published : Int
  shortId : String
  title : String
  summary : String
  authors : List String
  pdf_url : String
  entry_id : String
deriving DecidableEq, Repr

/-- `result.updated or result.published` (line 38): a datetime is always
truthy, so the `or` falls back to `published` exactly when `updated` is
`None`. -/
def effectiveTs (r : ListingResult) : Int := r.updated.getD r.published

/-- UTC calendar day of a UTC timestamp (`updated.date()`, line 41). -/
def dayOf (ts : Int) : Int := Int.fdiv ts 86400

/-- The `PaperItem(...)` construction of lines 46-54. -/
def mkItem (r : ListingResult) : PaperItem :=
  { arxiv_id := r.shortId
    title := pyStrip r.title
    summary := pyStrip r.summary
    authors := r.authors
    pdf_url := replaceHttp r.pdf_url
    abs_url := r.entry_id }

/-- `papers_by_day[day].append(item)` on a `defaultdict(list)`: Python
dicts preserve key insertion order, and appending extends the first (and
only) entry holding the key. -/
def insertByDay {α : Type} (m : List (Int × List α)) (day : Int) (x : α) :
    List (Int × List α) :=
  match m with
  | [] => [(day, [x])]
  | (d, l) :: t => if d = day then (d, l ++ [x]) :: t else (d, l) :: insertByDay t day x

/-- Dictionary lookup `papers_by_day[latest_day]` (empty when absent). -/
def lookupD {α : Type} (d : Int) (m : List (Int × List α)) : List α :=
  match m with
  | [] => []
  | (k, l) :: t => if k = d then l else lookupD d t

def optMaxStep (o : Option Int) (x : Int) : Option Int :=
  some (match o with | none => x | some m => max m x)

/-- `max` over a list of integers, `none` on the empty list. -/
def maxInt? (l : List Int) : Option Int := l.foldl optMaxStep none

/-- `max(papers_by_day.keys())`, `none` when the dict is empty (the source
guards that case with `if not papers_by_day: return []`). -/
def maxKey {α : Type} (m : List (Int × List α)) : Option Int :=
  maxInt? (m.map Prod.fst)

/-- The `papers_by_day` dict after the loop of lines 36-57: results whose
effective timestamp is before `cutoff = now - timedelta(hours=lookback_hours)`
are skipped (`continue`), the rest are grouped under their UTC day. -/
def papersByDay (now lookback_hours : Int) (results : List ListingResult) :
    List (Int × List PaperItem) :=
  results.foldl
    (fun m r =>
      if effectiveTs r < now - lookback_hours * 3600 then m
      else insertByDay m (dayOf (effectiveTs r)) (mkItem r)) []

/-- The pure core of `fetch_recent_arxiv`: input is the result sequence the
arXiv client delivers (already capped and paginated; an
UnexpectedEmptyPageError merely truncates that sequence, lines 56-57) plus
the current time and the lookback window.  `if not papers_by_day: return []`
corresponds to the `none` branch of `maxKey`. -/
def fetch_recent_arxiv (now lookback_hours : Int) (results : List ListingResult) :
    List PaperItem :=
  match maxKey (papersByDay now lookback_hours results) with
  | none => []
  | some latest_day => lookupD latest_day (papersByDay now lookback_hours results)

/-- The results that survive the recency filter of lines 39-40, in
delivered order. -/
def survivors (now lookback_hours : Int) (results : List ListingResult) :
    List ListingResult :=
  results.filter (fun r => !decide (effectiveTs r < now - lookback_hours * 3600))

/-- Modelled from the spec (for the refinement claim C4): group-by-day then
select-the-maximum-day returns exactly the surviving items whose effective
date equals the maximum day present, in original order, and the empty list
when nothing survives. -/
def fetchRecentSpec (now lookback_hours : Int) (results : List ListingResult) :
    List PaperItem :=
  match maxInt? ((survivors now lookback_hours results).map (fun r => dayOf (effectiveTs r))) with
  | none => []
  | some d => ((survivors now lookback_hours results).filter
      (fun r => decide (dayOf (effectiveTs r) = d))).map mkItem

/-- A listing result whose effective timestamp equals the cutoff of the
C7 witness scenario exactly (no update, published at second 395200 with
`now = 1000000` and a 168-hour window). -/
def resEq : ListingResult :=
  { updated := none, published := 395200, shortId := "2401.00003",
    title := "t", summary := "s", authors := [],
    pdf_url := "http://arxiv.org/pdf/2401.00003",
    entry_id := "https://arxiv.org/abs/2401.00003" }

/-! ## Affiliation extraction (`extract_affiliations_from_pdf`,
src/main.py lines 148-187)

The function is embedded from the point where fitz has delivered the first
page's plain text. -/

/-- Python `text.split("\n")`. -/
def splitNl : List Char → List (List Char)
  | [] => [[]]
  | c :: t =>
    if c = '\n' then [] :: splitNl t
    else
      match splitNl t with
      | [] => [[c]]
      | l :: ls => (c :: l) :: ls

/-- `[l.strip() for l in text.split("\n") if l.strip()]` (line 153). -/
def pdfLines (text : String) : List String :=
  (((splitNl text.data).map stripChars).map (fun cs => (⟨cs⟩ : String))).filter
    (fun l => !decide (l = ""))

def kw1 : List String := ["university", "institute", "college", "lab", "centre", "center"]

def kw2 : List String := ["university", "institute", "college", "academy", "lab"]

/-- `any(k in line.lower() for k in kws)`. -/
def hasKw (kws : List String) (line : String) : Bool :=
  kws.any (fun k => containsSub k.data (lowerStr line).data)

/-- `re.match(r"^\d+\s*[-–:]?\s*", line)` succeeds exactly when the line
starts with a digit, since everything after `\d+` in the pattern is
optional. -/
def startsWithDigit (line : String) : Bool :=
  match line.data with
  | [] => false
  | c :: _ => c.isDigit

/-- The lines collected by pass 1 (lines 155-168): numeric marker and an
institution keyword. -/
def pass1Lines (lines : List String) : List String :=
  lines.filter (fun l => startsWithDigit l && hasKw kw1 l)

/-- The raw lines the two passes add to the `affiliations` set, in page
order: pass 1, or — only when pass 1 collected nothing (line 170) —
pass 2 (keyword only, different keyword list, lines 171-176). -/
def matchedLines (text : String) : List String :=
  let lines := pdfLines text
  let p1 := pass1Lines lines
  if p1.isEmpty then lines.filter (fun l => hasKw kw2 l) else p1

/-- `re.sub(r"^\d+\s*[-–:]?\s*", "", aff)` (line 180): the regex engine
strips the leading digits, then whitespace, then at most one
dash / en dash / colon, then whitespace; a line not starting with a digit
is unchanged. -/
def cleanMarkerChars (cs : List Char) : List Char :=
  match cs with
  | [] => []
  | c :: _ =>
    if c.isDigit then
      let r1 := cs.dropWhile Char.isDigit
      let r2 := r1.dropWhile (fun x => pyIsSpace x)
      let r3 :=
        match r2 with
        | d :: t => if d = '-' || d = '–' || d = ':' then t else r2
        | [] => []
      r3.dropWhile (fun x => pyIsSpace x)
    else cs

/-- `re.sub(r"\s+", " ", aff)` (line 181): collapse each whitespace run to
one space. -/
def collapseWsAux : Bool → List Char → List Char
  | _, [] => []
  | prev, c :: t =>
    if pyIsSpace c then
      if prev then collapseWsAux true t else ' ' :: collapseWsAux true t
    else c :: collapseWsAux false t

/-- The cleaning of lines 180-181: strip the numeric marker, `strip()`,
then collapse whitespace runs. -/
def cleanAff (s : String) : String :=
  ⟨collapseWsAux false (stripChars (cleanMarkerChars s.data))⟩

def dedupFirstAux (seen : List String) : List String → List String
  | [] => []
  | x :: t => if x ∈ seen then dedupFirstAux seen t else x :: dedupFirstAux (x :: seen) t

/-- Python `list(dict.fromkeys(xs))` (line 184): first-occurrence
de-duplication. -/
def dedupFirst (l : List String) : List String := dedupFirstAux [] l

/-- The distinct raw lines held by the `affiliations` set, listed once each
in first-seen page order; the set itself is unordered. -/
def affiliationSetElems (text : String) : List String := dedupFirst (matchedLines text)

/-- `extract_affiliations_from_pdf` from the first page's text onward.
`affiliations` is a Python `set`, whose iteration order in the cleaning
loop of lines 178-182 is arbitrary (string hashing is randomized per
process); the embedding therefore takes that order as the extra input
`setOrder`, constrained in the theorems to be a permutation of the set's
elements.  The cleaned strings are then de-duplicated by
`list(dict.fromkeys(cleaned))` (line 184). -/
def extract_affiliations_from_pdf (text : String) (setOrder : List String → List String) :
    List String :=
  dedupFirst ((setOrder (affiliationSetElems text)).map cleanAff)

/-- A concrete two-line first page for the C2 scenario. -/
def alphaBetaText : String := "Alpha University\nBeta Institute"

/-! ## Exception downgrading (claim C9) -/

/-- `extract_main_figure` with the fallibility of `fitz.open` and pixmap
decoding explicit: the whole body runs inside `try`, and any exception is
downgraded to `None` (lines 71-92). -/
def extract_main_figure_total (parsed : Except String (List PdfImage)) : Option PdfImage :=
  match parsed with
  | Except.error _ => none
  | Except.ok imgs => extract_main_figure imgs

/-- `extract_affiliations_from_pdf` with the fallibility of `fitz.open` and
first-page text extraction explicit: any exception yields `[]`
(lines 186-187). -/
def extract_affiliations_total (parsed : Except String String)
    (setOrder : List String → List String) : List String :=
  match parsed with
  | Except.error _ => []
  | Except.ok text => extract_affiliations_from_pdf text setOrder

/-- The figure obtained by `run` for one paper (lines 251-258): the PDF
download may fail (httpx error or `raise_for_status`), in which case the
bare `except: pass` leaves `img = None`; otherwise the downloaded bytes are
parsed and the main figure extracted. -/
def runFigure (download : Except String (Except String (List PdfImage))) :
    Option PdfImage :=
  match download with
  | Except.error _ => none
  | Except.ok parsed => extract_main_figure_total parsed

/-! ## Email assembly (`build_email`, src/main.py lines 95-138) -/

/-- `html.escape(s)` with the default `quote=True`. -/
def escChar (c : Char) : List Char :=
  if c.toNat = 38 then ("&amp;".data)
  else if c.toNat = 60 then ("&lt;".data)
  else if c.toNat = 62 then ("&gt;".data)
  else if c.toNat = 34 then ("&quot;".data)
  else if c.toNat = 39 then ("&#x27;".data)
  else [c]

def htmlEscape (s : String) : String := ⟨(s.data.map escChar).flatten⟩

def digitChar (n : Nat) : Char :=
  if n = 0 then '0' else if n = 1 then '1' else if n = 2 then '2'
  else if n = 3 then '3' else if n = 4 then '4' else if n = 5 then '5'
  else if n = 6 then '6' else if n = 7 then '7' else if n = 8 then '8' else '9'

/-- Decimal rendering of a natural number, on fuel (structural recursion so
that concrete renderings compute); `n + 1` units of fuel always suffice,
since a number has at most `n + 1` decimal digits. -/
def natToCharsAux : Nat → Nat → List Char
  | 0, _ => []
  | fuel + 1, n =>
    if n < 10 then [digitChar n]
    else natToCharsAux fuel (n / 10) ++ [digitChar (n % 10)]

/-- Decimal rendering of a natural number (the block numbering the
f-string interpolates). -/
def natToChars (n : Nat) : List Char := natToCharsAux (n + 1) n

def natToStr (n : Nat) : String := ⟨natToChars n⟩

def enumFrom {α : Type} (n : Nat) : List α → List (Nat × α)
  | [] => []
  | x :: t => (n, x) :: enumFrom (n + 1) t

/-- One numbered HTML block of the email body (lines 106-111): the f-string
with `html.escape` applied to the title, the joined author list and the
translated summary, and the two URLs interpolated as they are. -/
def buildBlock (i : Nat) (d : PaperDigest) : String :=
  "\n        <h3>" ++ natToStr i ++ ". " ++ htmlEscape d.paper.title
    ++ "</h3>\n        <p><b>作者：</b>" ++ htmlEscape (joinComma d.paper.authors)
    ++ "<br/>\n        <a href=\"" ++ d.paper.abs_url
    ++ "\">摘要页</a> | <a href=\"" ++ d.paper.pdf_url
    ++ "\">PDF</a></p>\n        <p style=\"white-space: pre-line;\">"
    ++ htmlEscape d.zh_summary ++ "</p>\n        "

/-- The HTML body of the email (lines 103-126): the joined numbered blocks
— or the no-new-papers placeholder when the join is empty — inside the
fixed header and footer (the inline-image path of lines 113-117 is
commented out in the source, so no block references an image). -/
def buildHtmlBody (category : String) (digests : List PaperDigest) : String :=
  "\n    <html><body>\n    <h2>arXiv " ++ category
    ++ " 每日摘要</h2>\n    "
    ++ (if joinStr ((enumFrom 1 digests).map (fun p => buildBlock p.1 p.2)) = ""
        then ("<p>今日暂无新论文。</p>")
        else joinStr ((enumFrom 1 digests).map (fun p => buildBlock p.1 p.2)))
    ++ "\n    <hr/><p style=\"color:#888\">Gemini 自动生成 · 请核对原文。</p></body></html>\n    "

/-- Modelled from the spec (claim C6 as stated): the same block but with
the two link URLs also HTML-escaped, as the claim asserts of the code. -/
def buildBlockClaim (i : Nat) (d : PaperDigest) : String :=
  "\n        <h3>" ++ natToStr i ++ ". " ++ htmlEscape d.paper.title
    ++ "</h3>\n        <p><b>作者：</b>" ++ htmlEscape (joinComma d.paper.authors)
    ++ "<br/>\n        <a href=\"" ++ htmlEscape d.paper.abs_url
    ++ "\">摘要页</a> | <a href=\"" ++ htmlEscape d.paper.pdf_url
    ++ "\">PDF</a></p>\n        <p style=\"white-space: pre-line;\">"
    ++ htmlEscape d.zh_summary ++ "</p>\n        "

/-- Modelled from the spec (claim C6 as stated): the body assembled from
the fully escaped blocks. -/
def buildHtmlBodyClaim (category : String) (digests : List PaperDigest) : String :=
  "\n    <html><body>\n    <h2>arXiv " ++ category
    ++ " 每日摘要</h2>\n    "
    ++ (if joinStr ((enumFrom 1 digests).map (fun p => buildBlockClaim p.1 p.2)) = ""
        then ("<p>今日暂无新论文。</p>")
        else joinStr ((enumFrom 1 digests).map (fun p => buildBlockClaim p.1 p.2)))
    ++ "\n    <hr/><p style=\"color:#888\">Gemini 自动生成 · 请核对原文。</p></body></html>\n    "

def countChar (c : Char) (s : String) : Nat := s.data.count c

/-- The default category configuration value. -/
def categoryCsCR : String := "cs.CR"

/-- A digest whose abstract-page URL carries raw HTML. -/
def digestInj : PaperDigest :=
  { paper := { arxiv_id := "2401.00001", title := "T", summary := "S",
               authors := ["A"], pdf_url := "https://arxiv.org/pdf/2401.00001",
               abs_url := "<x>" }
    zh_summary := "Z", summary_en := "E", main_img_bytes := none, main_img_cid := none }

/-- A digest whose URLs contain no HTML special characters. -/
def digestBen : PaperDigest :=
  { paper := { arxiv_id := "2401.00002", title := "A <tricky> & title", summary := "S",
               authors := ["B & C"], pdf_url := "https://arxiv.org/pdf/2401.00002",
               abs_url := "https://arxiv.org/abs/2401.00002" }
    zh_summary := "摘<要", summary_en := "E", main_img_bytes := none, main_img_cid := none }

/-! ## Theorems -/

lemma selectStep_eq (acc : Option PdfImage × Nat) (img : PdfImage) :
    selectStep acc img =
      if passesFilter img ∧ acc.2 < imgArea img then (some img, imgArea img) else acc := by
  unfold selectStep passesFilter
  by_cases h1 : min img.w img.h < 200
  · rw [if_pos h1, if_neg]
    rintro ⟨⟨hmin, _⟩, _⟩
    exact hmin h1
  · rw [if_neg h1]
    by_cases h2 : 6 * img.h < img.w ∨ 6 * img.w < img.h
    · rw [if_pos h2, if_neg]
      rintro ⟨⟨_, hasp⟩, _⟩
      exact hasp h2
    · rw [if_neg h2]
      by_cases h3 : acc.2 < imgArea img
      · rw [if_pos h3, if_pos ⟨⟨h1, h2⟩, h3⟩]
      · rw [if_neg h3, if_neg]
        rintro ⟨_, h⟩
        exact h3 h

lemma passesFilter_area_pos (i : PdfImage) (h : passesFilter i) : 0 < imgArea i := by
  rcases h with ⟨hmin, _⟩
  have hw : 0 < i.w := by omega
  have hh : 0 < i.h := by omega
  exact Nat.mul_pos hw hh

lemma SelInv_step (processed : List PdfImage) (acc : Option PdfImage × Nat)
    (img : PdfImage) (h : SelInv processed acc) :
    SelInv (processed ++ [img]) (selectStep acc img) := by
  rw [selectStep_eq]
  by_cases hp : passesFilter img ∧ acc.2 < imgArea img
  · rw [if_pos hp]
    refine Or.inr ⟨img, rfl, rfl, hp.1, processed, [], rfl, ?_, by simp⟩
    intro i hi hip
    rcases h with ⟨_, h2, h3⟩ | ⟨b, _, hb2, _, pre, post, heq, hpre, hpost⟩
    · exact absurd hip (h3 i hi)
    · subst heq
      have hb : imgArea b < imgArea img := by
        have := hp.2; rw [hb2] at this; exact this
      rcases List.mem_append.mp hi with hL | hR
      · exact lt_trans (hpre i hL hip) hb
      · rcases List.mem_cons.mp hR with rfl | hR'
        · exact hb
        · exact lt_of_le_of_lt (hpost i hR' hip) hb
  · rw [if_neg hp]
    rcases h with ⟨h1, h2, h3⟩ | ⟨b, hb1, hb2, hbp, pre, post, heq, hpre, hpost⟩
    · refine Or.inl ⟨h1, h2, ?_⟩
      intro i hi
      rcases List.mem_append.mp hi with hL | hR
      · exact h3 i hL
      · rcases List.mem_cons.mp hR with rfl | h'
        · intro hip
          have : 0 < imgArea i := passesFilter_area_pos i hip
          exact hp ⟨hip, by omega⟩
        · simp at h'
    · refine Or.inr ⟨b, hb1, hb2, hbp, pre, post ++ [img], by rw [heq]; simp, hpre, ?_⟩
      intro i hi hip
      rcases List.mem_append.mp hi with hL | hR
      · exact hpost i hL hip
      · rcases List.mem_cons.mp hR with rfl | h'
        · have : ¬ acc.2 < imgArea i := fun hlt => hp ⟨hip, hlt⟩
          rw [hb2] at this; omega
        · simp at h'

lemma SelInv_foldl (l : List PdfImage) :
    ∀ (processed : List PdfImage) (acc : Option PdfImage × Nat),
      SelInv processed acc → SelInv (processed ++ l) (l.foldl selectStep acc) := by
  induction l with
  | nil => intro p acc h; simpa using h
  | cons x t ih =>
    intro p acc h
    have h2 := ih (p ++ [x]) (selectStep acc x) (SelInv_step p acc x h)
    simpa [List.append_assoc] using h2

/-- Claim C3.  The figure extractor returns (the PNG encoding of) an image
whose smaller dimension is at least 200 and whose aspect ratio is at most
6:1 in either direction; among all images passing these filters it returns
the one with the largest width-times-height area, the first-encountered
image (page order, then embedding order) winning area ties because the
comparison is strict greater-than; it returns none if no image passes. -/
theorem extract_main_figure_correct (imgs : List PdfImage) :
    (extract_main_figure imgs = none → ∀ i ∈ imgs, ¬ passesFilter i) ∧
    (∀ b, extract_main_figure imgs = some b →
      passesFilter b ∧
      (∀ i ∈ imgs, passesFilter i → imgArea i ≤ imgArea b) ∧
      ∃ pre post, imgs = pre ++ b :: post ∧
        ∀ i ∈ pre, passesFilter i → imgArea i < imgArea b) := by
  have h0 : SelInv [] ((none : Option PdfImage), 0) := Or.inl ⟨rfl, rfl, by simp⟩
  have h := SelInv_foldl imgs [] (none, 0) h0
  rw [List.nil_append] at h
  unfold extract_main_figure
  rcases h with ⟨h1, _, h3⟩ | ⟨b, hb1, _, hbp, pre, post, heq, hpre, hpost⟩
  · refine ⟨fun _ => h3, ?_⟩
    intro b hb
    rw [h1] at hb
    cases hb
  · constructor
    · intro hn
      rw [hb1] at hn
      cases hn
    · intro b' hb'
      rw [hb1] at hb'
      injection hb' with hbe
      subst hbe
      refine ⟨hbp, ?_, pre, post, heq, hpre⟩
      intro i hi hip
      rw [heq] at hi
      rcases List.mem_append.mp hi with hL | hR
      · exact le_of_lt (hpre i hL hip)
      · rcases List.mem_cons.mp hR with rfl | hR'
        · exact le_refl _
        · exact hpost i hR' hip

/-- Witness for C3: on `imgsW` the extractor picks the 250 by 300 image,
which passes the filters and dominates the other passing image by area. -/
theorem extract_main_figure_correct_witness :
    passesFilter ⟨250, 300⟩ ∧ imgArea ⟨201, 201⟩ ≤ imgArea ⟨250, 300⟩ := by
  have h := (extract_main_figure_correct imgsW).2 ⟨250, 300⟩ (by decide)
  exact ⟨h.1, h.2.1 ⟨201, 201⟩ (by decide) (by decide)⟩

/-- Claim C5 as stated is impossible: an image of dimensions 100 by 300
fails the minimum-dimension filter (its smaller side is 100 < 200), so the
two images cannot both pass the filters, and neither is selected. -/
theorem two_images_100x300_100x400_counterexample :
    ¬ (passesFilter ⟨100, 300⟩ ∧ passesFilter ⟨100, 400⟩ ∧
       extract_main_figure [⟨100, 300⟩, ⟨100, 400⟩] = some ⟨100, 400⟩) := by
  decide

/-- Claim C5 amended.  Images of dimensions 100 by 300 and 100 by 400 both
fail the minimum-dimension filter, so a PDF containing only those two
images yields no figure; for two images that do pass the filters, such as
200 by 300 and 200 by 400, the larger-area 200 by 400 image is selected. -/
theorem two_images_selection_amended :
    extract_main_figure [⟨100, 300⟩, ⟨100, 400⟩] = none ∧
    extract_main_figure [⟨200, 300⟩, ⟨200, 400⟩] = some ⟨200, 400⟩ := by
  decide

/-- Claim C10.  The aspect-ratio divisions are evaluated only for images
whose smaller dimension is at least 200, because the minimum-dimension
rejection precedes them; hence the loop body never raises
ZeroDivisionError — for every image, including zero-width or zero-height
ones, it returns exactly the value of the total loop body `selectStep`. -/
theorem selectStepE_no_div_by_zero (acc : Option PdfImage × Nat) (img : PdfImage) :
    selectStepE acc img = Except.ok (selectStep acc img) := by
  unfold selectStepE selectStep aspectTooThin
  by_cases h1 : min img.w img.h < 200
  · rw [if_pos h1, if_pos h1]
  · rw [if_neg h1, if_neg h1]
    have hh : ¬ img.h = 0 := by omega
    have hw : ¬ img.w = 0 := by omega
    rw [if_neg hh]
    by_cases h2 : 6 * img.h < img.w
    · rw [if_pos h2, if_pos (Or.inl h2)]
    · rw [if_neg h2, if_neg hw]
      by_cases h3 : 6 * img.w < img.h
      · rw [decide_eq_true h3, if_pos (Or.inr h3)]
      · have hor : ¬ (6 * img.h < img.w ∨ 6 * img.w < img.h) := by omega
        rw [decide_eq_false h3, if_neg hor]
        by_cases h4 : acc.2 < imgArea img
        · rw [if_pos h4, if_pos h4]
        · rw [if_neg h4, if_neg h4]

/-! ### Listing fetcher lemmas (claims C4, C7) -/

lemma keys_insertByDay {α : Type} (m : List (Int × List α)) (day : Int) (x : α) :
    (insertByDay m day x).map Prod.fst =
      if day ∈ m.map Prod.fst then m.map Prod.fst else m.map Prod.fst ++ [day] := by
  induction m with
  | nil => simp [insertByDay]
  | cons p t ih =>
    obtain ⟨k, l⟩ := p
    by_cases hk : k = day
    · subst hk
      simp [insertByDay]
    · simp only [insertByDay, if_neg hk, List.map_cons, ih]
      by_cases hd : day ∈ t.map Prod.fst
      · rw [if_pos hd, if_pos (by simp [hd])]
      · have hnd : day ∉ (k :: t.map Prod.fst) := by
          intro hmem
          rcases List.mem_cons.mp hmem with he | hmem'
          · exact hk he.symm
          · exact hd hmem'
        rw [if_neg hd, if_neg hnd]
        simp

lemma foldl_optMaxStep_bound (l : List Int) :
    ∀ (o : Option Int) (M : Int), l.foldl optMaxStep o = some M →
      (∀ x ∈ l, x ≤ M) ∧ (∀ y, o = some y → y ≤ M) := by
  induction l with
  | nil =>
    intro o M h
    refine ⟨by simp, ?_⟩
    intro y hy
    rw [hy] at h
    simp only [List.foldl_nil] at h
    injection h with h
    omega
  | cons x t ih =>
    intro o M h
    simp only [List.foldl_cons] at h
    obtain ⟨ht, ho⟩ := ih (optMaxStep o x) M h
    have hx : x ≤ M := by
      cases o with
      | none => exact ho x rfl
      | some y =>
        have := ho (max y x) rfl
        omega
    refine ⟨?_, ?_⟩
    · intro z hz
      rcases List.mem_cons.mp hz with rfl | hz'
      · exact hx
      · exact ht z hz'
    · intro y hy
      subst hy
      have := ho (max y x) rfl
      omega

lemma foldl_optMaxStep_some (l : List Int) :
    ∀ y : Int, ∃ M, l.foldl optMaxStep (some y) = some M := by
  induction l with
  | nil => intro y; exact ⟨y, rfl⟩
  | cons x t ih =>
    intro y
    simpa [optMaxStep] using ih (max y x)

lemma maxInt?_eq_none_iff (l : List Int) : maxInt? l = none ↔ l = [] := by
  cases l with
  | nil => simp [maxInt?]
  | cons x t =>
    simp only [maxInt?, List.foldl_cons]
    obtain ⟨M, hM⟩ := foldl_optMaxStep_some t x
    simp [optMaxStep] at hM ⊢
    rw [hM]
    simp

lemma maxInt?_append_singleton (l : List Int) (x : Int) :
    maxInt? (l ++ [x]) = optMaxStep (maxInt? l) x := by
  simp [maxInt?, List.foldl_append]

lemma maxKey_insertByDay {α : Type} (m : List (Int × List α)) (day : Int) (x : α) :
    maxKey (insertByDay m day x) = optMaxStep (maxKey m) day := by
  unfold maxKey
  rw [keys_insertByDay]
  by_cases hd : day ∈ m.map Prod.fst
  · rw [if_pos hd]
    obtain ⟨M, hM⟩ : ∃ M, maxInt? (m.map Prod.fst) = some M := by
      cases h : maxInt? (m.map Prod.fst) with
      | none =>
        rw [maxInt?_eq_none_iff] at h
        rw [h] at hd
        simp at hd
      | some M => exact ⟨M, rfl⟩
    have hle : day ≤ M := (foldl_optMaxStep_bound _ none M hM).1 day hd
    rw [hM]
    simp [optMaxStep, max_eq_left hle]
  · rw [if_neg hd, maxInt?_append_singleton]

lemma maxKey_foldl_insert {α R : Type} (key : R → Int) (val : R → α) (l : List R) :
    ∀ m0 : List (Int × List α),
      maxKey (l.foldl (fun m r => insertByDay m (key r) (val r)) m0) =
        (l.map key).foldl optMaxStep (maxKey m0) := by
  induction l with
  | nil => intro m0; simp
  | cons r t ih =>
    intro m0
    simp only [List.foldl_cons, List.map_cons]
    rw [ih, maxKey_insertByDay]

lemma lookupD_insertByDay {α : Type} (d day : Int) (x : α) (m : List (Int × List α)) :
    lookupD d (insertByDay m day x) =
      if day = d then lookupD d m ++ [x] else lookupD d m := by
  induction m with
  | nil => by_cases h : day = d <;> simp [insertByDay, lookupD, h]
  | cons p t ih =>
    obtain ⟨k, l⟩ := p
    by_cases hk : k = day
    · by_cases hd : day = d
      · simp [insertByDay, lookupD, hk, hd, hk.trans hd]
      · have hkd : ¬ k = d := fun h => hd (hk ▸ h)
        simp [insertByDay, lookupD, hk, hd, hkd]
    · by_cases hd : k = d
      · have hdd : ¬ day = d := fun h => hk (hd.trans h.symm)
        have hdy : ¬ d = day := fun h => hk (hd.trans h)
        simp [insertByDay, lookupD, hk, hd, hdd, hdy]
      · simp [insertByDay, lookupD, hk, hd, ih]

lemma lookupD_foldl_insert {α R : Type} (key : R → Int) (val : R → α) (d : Int)
    (l : List R) :
    ∀ m0 : List (Int × List α),
      lookupD d (l.foldl (fun m r => insertByDay m (key r) (val r)) m0) =
        lookupD d m0 ++ (l.filter (fun r => decide (key r = d))).map val := by
  induction l with
  | nil => intro m0; simp
  | cons r t ih =>
    intro m0
    simp only [List.foldl_cons]
    rw [ih, lookupD_insertByDay]
    by_cases hk : key r = d
    · rw [if_pos hk]
      simp [List.filter_cons, hk]
    · rw [if_neg hk]
      simp [List.filter_cons, hk]

lemma foldl_guard {R M : Type} (p : R → Prop) [DecidablePred p] (g : M → R → M)
    (l : List R) :
    ∀ m : M,
      l.foldl (fun m r => if p r then m else g m r) m =
        (l.filter (fun r => !decide (p r))).foldl g m := by
  induction l with
  | nil => intro m; simp
  | cons r t ih =>
    intro m
    by_cases h : p r
    · simp [List.filter_cons, h, ih]
    · simp [List.filter_cons, h, ih]

lemma papersByDay_eq_foldl_survivors (now lookback_hours : Int)
    (results : List ListingResult) :
    papersByDay now lookback_hours results =
      (survivors now lookback_hours results).foldl
        (fun m r => insertByDay m (dayOf (effectiveTs r)) (mkItem r)) [] := by
  unfold papersByDay survivors
  exact foldl_guard (fun r => effectiveTs r < now - lookback_hours * 3600) _ results []

/-- Claim C4.  Grouping the recency-filter survivors by the UTC calendar
day of their effective timestamp and selecting the maximum day key returns
exactly the items whose effective date equals that maximum day, in the
original API-delivered order; if zero items survive, the empty list is
returned.  Stated as: the implementation equals the specification function
`fetchRecentSpec` written from the spec's words. -/
theorem fetch_recent_arxiv_correct (now lookback_hours : Int)
    (results : List ListingResult) :
    fetch_recent_arxiv now lookback_hours results =
      fetchRecentSpec now lookback_hours results := by
  have hmax : maxKey (papersByDay now lookback_hours results) =
      maxInt? ((survivors now lookback_hours results).map (fun r => dayOf (effectiveTs r))) := by
    rw [papersByDay_eq_foldl_survivors,
      maxKey_foldl_insert (fun r => dayOf (effectiveTs r)) mkItem]
    simp [maxKey, maxInt?]
  have hlook : ∀ d : Int, lookupD d (papersByDay now lookback_hours results) =
      ((survivors now lookback_hours results).filter
        (fun r => decide (dayOf (effectiveTs r) = d))).map mkItem := by
    intro d
    rw [papersByDay_eq_foldl_survivors,
      lookupD_foldl_insert (fun r => dayOf (effectiveTs r)) mkItem]
    simp [lookupD]
  unfold fetch_recent_arxiv fetchRecentSpec
  rw [hmax]
  cases h : maxInt? ((survivors now lookback_hours results).map (fun r => dayOf (effectiveTs r))) with
  | none => rfl
  | some d => exact hlook d

/-- Claim C7.  The recency filter of the listing fetcher excludes a
delivered result exactly when its effective timestamp — `updated` falling
back to `published` — is strictly before `now` minus the lookback window;
a result whose effective timestamp equals the cutoff is retained. -/
theorem survivors_mem_iff (now lookback_hours : Int) (results : List ListingResult)
    (r : ListingResult) (h : r ∈ results) :
    (r ∉ survivors now lookback_hours results ↔
      effectiveTs r < now - lookback_hours * 3600) ∧
    (effectiveTs r = now - lookback_hours * 3600 →
      r ∈ survivors now lookback_hours results) := by
  constructor
  · unfold survivors
    rw [List.mem_filter]
    simp [h]
    omega
  · intro he
    unfold survivors
    rw [List.mem_filter]
    refine ⟨h, ?_⟩
    simp [he]

/-- Witness for C7: a result whose effective timestamp equals the cutoff
exactly is retained. -/
theorem survivors_mem_iff_witness : resEq ∈ survivors 1000000 168 [resEq] :=
  (survivors_mem_iff 1000000 168 [resEq] resEq (by simp)).2 (by decide)

/-! ### Digest construction (claims C1, C8) -/

/-- Claim C1 (code bug).  The `PaperDigest(...)` call of `run`
(src/main.py lines 260-267) omits the field `summary_en`, which
`data_model.PaperDigest` declares with no default, so pydantic validation
raises ValidationError for every paper and no digest is ever created — in
particular none containing the generated English summary, which
`summarize_from_pdf` does not even return to the caller. -/
theorem run_digest_validation_fails (p : PaperItem) (zh : String)
    (img : Option (List Nat)) :
    PaperDigest.validate (runDigestKwargs p zh img) =
      Except.error ("ValidationError: missing required field") := rfl

/-- Claim C8.  In the digest construction of the run loop, the
content-identifier value passed for `main_img_cid` is non-None exactly when
the value passed for `main_img_bytes` is a non-empty bytes object: the
source guards the cid with the truthiness of `img`
(`main_img_cid=cid if img else None`), and `None` and empty bytes are the
only falsy values `img` can take. -/
theorem run_digest_cid_iff (p : PaperItem) (zh : String) (img : Option (List Nat)) :
    (∃ c, (runDigestKwargs p zh img).main_img_cid = some (some c)) ↔
      (∃ b, (runDigestKwargs p zh img).main_img_bytes = some (some b) ∧ b ≠ []) := by
  cases img with
  | none => simp [runDigestKwargs, pyTruthyBytes]
  | some b =>
    cases b with
    | nil => simp [runDigestKwargs, pyTruthyBytes]
    | cons a t => simp [runDigestKwargs, pyTruthyBytes]

/-! ### Exception downgrading (claim C9) -/

/-- Claim C9.  The best-effort steps never propagate a failure: any failure
while opening or decoding the PDF inside `extract_main_figure` yields
`None`; any failure inside `extract_affiliations_from_pdf` yields `[]`;
and in the run loop both a failed PDF download and a failure inside the
figure extraction it feeds leave `img = None`. -/
theorem best_effort_steps_never_propagate (e e' : String)
    (setOrder : List String → List String) :
    extract_main_figure_total (Except.error e) = none ∧
    extract_affiliations_total (Except.error e) setOrder = [] ∧
    runFigure (Except.error e) = none ∧
    runFigure (Except.ok (Except.error e')) = none :=
  ⟨rfl, rfl, rfl, rfl⟩

/-! ### Affiliation extraction lemmas (claim C2) -/

lemma mem_dedupFirstAux (l : List String) :
    ∀ (seen : List String) (x : String),
      x ∈ dedupFirstAux seen l ↔ x ∈ l ∧ x ∉ seen := by
  induction l with
  | nil => intro seen x; simp [dedupFirstAux]
  | cons y t ih =>
    intro seen x
    by_cases hy : y ∈ seen
    · rw [dedupFirstAux, if_pos hy, ih]
      constructor
      · rintro ⟨hx, hns⟩
        exact ⟨List.mem_cons_of_mem y hx, hns⟩
      · rintro ⟨hx, hns⟩
        rcases List.mem_cons.mp hx with rfl | hx'
        · exact absurd hy hns
        · exact ⟨hx', hns⟩
    · rw [dedupFirstAux, if_neg hy]
      constructor
      · intro hx
        rcases List.mem_cons.mp hx with rfl | hx'
        · exact ⟨List.mem_cons_self _ _, hy⟩
        · rw [ih] at hx'
          obtain ⟨h1, h2⟩ := hx'
          exact ⟨List.mem_cons_of_mem y h1, fun hs => h2 (List.mem_cons_of_mem y hs)⟩
      · rintro ⟨hx, hns⟩
        rcases List.mem_cons.mp hx with rfl | hx'
        · exact List.mem_cons_self _ _
        · by_cases hxy : x = y
          · subst hxy
            exact List.mem_cons_self _ _
          · refine List.mem_cons_of_mem _ ?_
            rw [ih]
            refine ⟨hx', ?_⟩
            intro hmem
            rcases List.mem_cons.mp hmem with he | hs
            · exact hxy he
            · exact hns hs

lemma nodup_dedupFirstAux (l : List String) :
    ∀ seen : List String, (dedupFirstAux seen l).Nodup := by
  induction l with
  | nil => intro seen; simp [dedupFirstAux]
  | cons y t ih =>
    intro seen
    by_cases hy : y ∈ seen
    · rw [dedupFirstAux, if_pos hy]
      exact ih seen
    · rw [dedupFirstAux, if_neg hy, List.nodup_cons]
      refine ⟨?_, ih (y :: seen)⟩
      intro hmem
      rw [mem_dedupFirstAux] at hmem
      exact hmem.2 (List.mem_cons_self _ _)

lemma mem_dedupFirst (l : List String) (x : String) : x ∈ dedupFirst l ↔ x ∈ l := by
  unfold dedupFirst
  rw [mem_dedupFirstAux]
  simp

lemma mem_map_dedupFirst (m : List String) (f : String → String) (s : String) :
    s ∈ (dedupFirst m).map f ↔ s ∈ m.map f := by
  simp only [List.mem_map]
  constructor
  · rintro ⟨x, hx, rfl⟩
    exact ⟨x, (mem_dedupFirst m x).mp hx, rfl⟩
  · rintro ⟨x, hx, rfl⟩
    exact ⟨x, (mem_dedupFirst m x).mpr hx, rfl⟩

/-- Claim C2 as stated fails on the code: the `affiliations` set is
unordered, so a legal iteration order of its two elements — here the
reverse of first-seen order — makes the cleaned output come out in an
order different from first-discovered page order. -/
theorem extract_affiliations_order_counterexample :
    (List.reverse (affiliationSetElems alphaBetaText)).Perm
      (affiliationSetElems alphaBetaText) ∧
    extract_affiliations_from_pdf alphaBetaText List.reverse ≠
      dedupFirst ((matchedLines alphaBetaText).map cleanAff) := by
  constructor
  · decide
  · decide

/-- Claim C2 amended.  For every first-page text and every iteration order
of the `affiliations` set, two lines that clean to the identical string
yield exactly one entry: the returned list is duplicate-free and is a
permutation of the first-discovered-order de-duplication of the cleaned
matched lines — but its order is the set's arbitrary iteration order, not
necessarily first-discovered page order. -/
theorem extract_affiliations_dedup_amended (text : String)
    (setOrder : List String → List String)
    (hperm : (setOrder (affiliationSetElems text)).Perm (affiliationSetElems text)) :
    (extract_affiliations_from_pdf text setOrder).Nodup ∧
    (extract_affiliations_from_pdf text setOrder).Perm
      (dedupFirst ((matchedLines text).map cleanAff)) := by
  unfold extract_affiliations_from_pdf
  refine ⟨nodup_dedupFirstAux _ _, ?_⟩
  apply List.perm_of_nodup_nodup_toFinset_eq (nodup_dedupFirstAux _ _)
    (nodup_dedupFirstAux _ _)
  ext s
  simp only [List.mem_toFinset]
  rw [mem_dedupFirstAux, mem_dedupFirstAux]
  simp only [List.not_mem_nil, not_false_iff, and_true]
  rw [(hperm.map cleanAff).mem_iff]
  exact mem_map_dedupFirst (matchedLines text) cleanAff s

/-- Witness for the amended C2 on a concrete text and iteration order. -/
theorem extract_affiliations_dedup_amended_witness :
    (extract_affiliations_from_pdf alphaBetaText List.reverse).Nodup ∧
    (extract_affiliations_from_pdf alphaBetaText List.reverse).Perm
      (dedupFirst ((matchedLines alphaBetaText).map cleanAff)) :=
  extract_affiliations_dedup_amended alphaBetaText List.reverse (by decide)

/-! ### Email assembly lemmas (claim C6)

`countChar` counts occurrences of a character; counting the raw `<`
characters of the assembled body measures exactly which tag-opening
characters it contains. -/

lemma data_append (a b : String) : (a ++ b).data = a.data ++ b.data := rfl

lemma countChar_append (c : Char) (a b : String) :
    countChar c (a ++ b) = countChar c a + countChar c b := by
  unfold countChar
  rw [data_append, List.count_append]

lemma count_escChar_lt (c : Char) : (escChar c).count '<' = 0 := by
  unfold escChar
  by_cases h1 : c.toNat = 38
  · rw [if_pos h1]; decide
  · rw [if_neg h1]
    by_cases h2 : c.toNat = 60
    · rw [if_pos h2]; decide
    · rw [if_neg h2]
      by_cases h3 : c.toNat = 62
      · rw [if_pos h3]; decide
      · rw [if_neg h3]
        by_cases h4 : c.toNat = 34
        · rw [if_pos h4]; decide
        · rw [if_neg h4]
          by_cases h5 : c.toNat = 39
          · rw [if_pos h5]; decide
          · rw [if_neg h5]
            have hne : ('<' : Char) ≠ c := by
              intro he
              exact h2 (by rw [← he]; rfl)
            simp [List.count_cons, hne]

lemma countChar_htmlEscape_lt (s : String) : countChar '<' (htmlEscape s) = 0 := by
  obtain ⟨l⟩ := s
  show ((l.map escChar).flatten).count '<' = 0
  induction l with
  | nil => rfl
  | cons c t ih =>
    simp only [List.map_cons, List.flatten_cons, List.count_append, ih,
      count_escChar_lt, Nat.add_zero]

lemma digitChar_ne_lt (n : Nat) : digitChar n ≠ '<' := by
  unfold digitChar
  repeat' split
  all_goals decide

lemma count_natToCharsAux_lt (fuel : Nat) :
    ∀ n : Nat, (natToCharsAux fuel n).count '<' = 0 := by
  induction fuel with
  | zero => intro n; rfl
  | succ f ih =>
    intro n
    rw [natToCharsAux]
    split
    · have hne : ('<' : Char) ≠ digitChar n := fun he => digitChar_ne_lt n he.symm
      simp [List.count_cons, hne]
    · rw [List.count_append]
      have hne : ('<' : Char) ≠ digitChar (n % 10) :=
        fun he => digitChar_ne_lt (n % 10) he.symm
      simp [ih (n / 10), List.count_cons, hne]

lemma countChar_natToStr_lt (n : Nat) : countChar '<' (natToStr n) = 0 :=
  count_natToCharsAux_lt (n + 1) n

lemma countChar_lt_buildBlock (i : Nat) (d : PaperDigest)
    (h1 : countChar '<' d.paper.abs_url = 0)
    (h2 : countChar '<' d.paper.pdf_url = 0) :
    countChar '<' (buildBlock i d) = 13 := by
  unfold buildBlock
  repeat rw [countChar_append]
  rw [countChar_natToStr_lt, countChar_htmlEscape_lt, countChar_htmlEscape_lt,
    countChar_htmlEscape_lt, h1, h2]
  decide

lemma countChar_lt_joinStr_blocks (ds : List PaperDigest)
    (hu : ∀ d ∈ ds,
      countChar '<' d.paper.abs_url = 0 ∧ countChar '<' d.paper.pdf_url = 0) :
    ∀ k : Nat,
      countChar '<' (joinStr ((enumFrom k ds).map (fun p => buildBlock p.1 p.2))) =
        13 * ds.length := by
  induction ds with
  | nil => intro k; rfl
  | cons d t ih =>
    intro k
    simp only [enumFrom, List.map_cons, joinStr]
    rw [countChar_append,
      countChar_lt_buildBlock k d (hu d (List.mem_cons_self _ _)).1
        (hu d (List.mem_cons_self _ _)).2,
      ih (fun x hx => hu x (List.mem_cons_of_mem _ hx)) (k + 1)]
    simp [List.length_cons]
    ring

lemma buildBlock_data_length_pos (i : Nat) (d : PaperDigest) :
    0 < (buildBlock i d).data.length := by
  unfold buildBlock
  simp only [data_append, List.length_append, List.length_cons, List.length_nil]
  omega

lemma joinStr_blocks_cons_ne_empty (d : PaperDigest) (t : List PaperDigest) (k : Nat) :
    ¬ joinStr ((enumFrom k (d :: t)).map (fun p => buildBlock p.1 p.2)) = "" := by
  simp only [enumFrom, List.map_cons, joinStr]
  intro h
  have h2 : (buildBlock k d ++
      joinStr ((enumFrom (k + 1) t).map (fun p => buildBlock p.1 p.2))).data.length = 0 := by
    rw [h]; rfl
  rw [data_append, List.length_append] at h2
  have h3 := buildBlock_data_length_pos k d
  omega

/-- Claim C6 as stated fails on the code: the two URLs are interpolated
into the href attributes without escaping, so a paper whose abstract URL
carries raw HTML puts it into the body unescaped — the assembled body
differs from the fully escaped body the claim describes, and contains one
more raw tag-opening character than it. -/
theorem build_email_escapes_counterexample :
    buildHtmlBody categoryCsCR [digestInj] ≠ buildHtmlBodyClaim categoryCsCR [digestInj] ∧
    countChar '<' (buildHtmlBody categoryCsCR [digestInj]) =
      countChar '<' (buildHtmlBodyClaim categoryCsCR [digestInj]) + 1 := by
  constructor
  · decide
  · decide

/-- Claim C6 amended.  The assembled HTML body escapes the titles, the
author lists and the translated summaries, but interpolates the two link
URLs raw: whenever the URLs (and the configured category) contain no raw
`<`, every `<` of the body comes from the fixed template — 9 for the
header and footer plus 13 per numbered block, or 9 plus 2 for the
placeholder when the digest list is empty — independently of the title,
author and summary texts. -/
theorem build_email_escapes_amended (category : String) (digests : List PaperDigest)
    (hc : countChar '<' category = 0)
    (hu : ∀ d ∈ digests,
      countChar '<' d.paper.abs_url = 0 ∧ countChar '<' d.paper.pdf_url = 0) :
    countChar '<' (buildHtmlBody category digests) =
      9 + (if digests.isEmpty then 2 else 13 * digests.length) := by
  unfold buildHtmlBody
  repeat rw [countChar_append]
  rw [hc]
  cases digests with
  | nil =>
    rw [if_pos (show joinStr ((enumFrom 1 ([] : List PaperDigest)).map
      (fun p => buildBlock p.1 p.2)) = "" from rfl)]
    decide
  | cons d t =>
    rw [if_neg (joinStr_blocks_cons_ne_empty d t 1),
      countChar_lt_joinStr_blocks (d :: t) hu 1]
    have e1 : countChar '<' "\n    <html><body>\n    <h2>arXiv " = 3 := rfl
    have e2 : countChar '<' " 每日摘要</h2>\n    " = 1 := rfl
    have e3 : countChar '<'
      "\n    <hr/><p style=\"color:#888\">Gemini 自动生成 · 请核对原文。</p></body></html>\n    " = 5 := rfl
    rw [e1, e2, e3]
    simp [List.length_cons]
    ring

/-- Witness for the amended C6: one digest with clean URLs (and raw HTML in
its title, authors and summary, which escaping neutralizes) yields a body
with exactly 9 + 13 raw tag-opening characters. -/
theorem build_email_escapes_amended_witness :
    countChar '<' (buildHtmlBody categoryCsCR [digestBen]) =
      9 + (if ([digestBen] : List PaperDigest).isEmpty then 2
           else 13 * ([digestBen] : List PaperDigest).length) :=
  build_email_escapes_amended categoryCsCR [digestBen] (by decide) (by decide)

end ArxivDaily
